import Mathlib

/-!
Verification of the foundry-anvil-playground client against its
natural-language specification.  The definitions below are a shallow
embedding of the TypeScript sources:

* `src/app/page.tsx`              — `fetchBalances` (batched JSON-RPC)
* `src/components/TokenBalances.tsx` — `pad32`, `tryDecodeStringFromAbi`,
  `getTokenMeta`, `formatUnits`, `addToken` / `removeToken`, `refresh`
* `src/components/NFTBalances.tsx`   — the NFT variants of the same helpers

JavaScript machine semantics (hex digit classes, `BigInt(string)`,
`parseInt(s, 16)`, `String.fromCharCode`, `padStart`, `Number(bigint)`
rounding) are modelled explicitly; code that can throw is modelled in
`Except`, with `try`/`catch` made explicit.
-/

/-! ## JS character and number primitives -/

/-- Value of a hexadecimal digit character (the regex class `[a-fA-F0-9]`),
by code point. -/
def hexDigitVal? (c : Char) : Option Nat :=
  let n := c.toNat
  if 48 ≤ n ∧ n ≤ 57 then some (n - 48)
  else if 97 ≤ n ∧ n ≤ 102 then some (n - 87)
  else if 65 ≤ n ∧ n ≤ 70 then some (n - 55)
  else none

/-- Whether a character is a hexadecimal digit. -/
def isHexChar (c : Char) : Bool := (hexDigitVal? c).isSome

/-- Total hex digit value (0 for non-digits); only used under an
`isHexChar` hypothesis. -/
def hv (c : Char) : Nat := (hexDigitVal? c).getD 0

/-- JS `StrWhiteSpace` characters (the ones relevant to trimming in
`BigInt(string)` / `parseInt`). -/
def jsWhitespace (c : Char) : Bool :=
  c == ' ' || c == '\t' || c == '\n' || c == '\x0b' || c == '\x0c' ||
  c == '\r' || c == Char.ofNat 160 || c == Char.ofNat 65279

/-- Digit value for a given radix (used by `BigInt(string)` prefixes). -/
def digitVal? (base : Nat) (c : Char) : Option Nat :=
  match hexDigitVal? c with
  | some v => if v < base then some v else none
  | none => none

/-- Big-endian value of a digit string in a given base (digits assumed
valid; invalid digits count as 0, never reached under validity). -/
def valueInBase (base : Nat) (l : List Char) : Nat :=
  l.foldl (fun a c => a * base + (digitVal? base c).getD 0) 0

/-- Big-endian value of a hex digit string. -/
def hexValNat (l : List Char) : Nat := valueInBase 16 l

/-- Strip JS whitespace from both ends of a character list. -/
def trimJsWs (l : List Char) : List Char :=
  ((l.dropWhile jsWhitespace).reverse.dropWhile jsWhitespace).reverse

/-- Parse a nonempty all-valid digit string in `base`; `none` models a
thrown `SyntaxError`. -/
def parseAllDigits (base : Nat) (l : List Char) : Option Int :=
  if l ≠ [] ∧ l.all (fun c => (digitVal? base c).isSome) then
    some (valueInBase base l : Int)
  else none

/-- Signed decimal literal for `BigInt(string)`. -/
def jsDecSigned (l : List Char) : Option Int :=
  match l with
  | '-' :: rest => (parseAllDigits 10 rest).map (fun v => -v)
  | '+' :: rest => parseAllDigits 10 rest
  | _ => parseAllDigits 10 l

/-- JS `BigInt(string)` (`StringToBigInt`): trim whitespace, empty means
0, `0x`/`0b`/`0o` radix prefixes, otherwise a signed decimal literal;
`none` models the thrown `SyntaxError`. -/
def jsBigIntOfString (s : String) : Option Int :=
  match trimJsWs s.data with
  | [] => some 0
  | c0 :: c1 :: rest =>
    if c0 = '0' ∧ (c1 = 'x' ∨ c1 = 'X') then parseAllDigits 16 rest
    else if c0 = '0' ∧ (c1 = 'b' ∨ c1 = 'B') then parseAllDigits 2 rest
    else if c0 = '0' ∧ (c1 = 'o' ∨ c1 = 'O') then parseAllDigits 8 rest
    else jsDecSigned (c0 :: c1 :: rest)
  | [c] => jsDecSigned [c]

/-- Source `hexToBigInt(hex) = BigInt(hex)` (TokenBalances.tsx,
NFTBalances.tsx); `none` models the throw on malformed input. -/
def hexToBigInt (hex : String) : Option Int := jsBigIntOfString hex

/-- JS `BigInt("0x" + tail)` as used by the ABI decoder. -/
def bigIntOfHexTail (l : List Char) : Option Int :=
  jsBigIntOfString (String.mk ('0' :: 'x' :: l))

/-- Strip an optional `0x`/`0X` prefix (`parseInt` with radix 16). -/
def strip0x (l : List Char) : List Char :=
  match l with
  | c0 :: c1 :: rest => if c0 = '0' ∧ (c1 = 'x' ∨ c1 = 'X') then rest else l
  | _ => l

/-- Magnitude part of `parseInt(s, 16)`: longest valid hex prefix,
`none` models `NaN`. -/
def parseHexMag (sign : Int) (l : List Char) : Option Int :=
  let digits := (strip0x l).takeWhile isHexChar
  if digits = [] then none else some (sign * (hexValNat digits : Int))

/-- JS `parseInt(s, 16)`: skip whitespace, optional sign, optional `0x`,
then the longest hex-digit run; `none` models `NaN`. -/
def jsParseIntHex (s : List Char) : Option Int :=
  match s.dropWhile jsWhitespace with
  | [] => none
  | c :: rest =>
    if c = '-' then parseHexMag (-1) rest
    else if c = '+' then parseHexMag 1 rest
    else parseHexMag 1 (c :: rest)

/-- JS `ToUint16` on an integer argument. -/
def toUint16 (n : Int) : Nat := (n % 65536).toNat

/-- Code unit pushed for one `parseInt` result: `String.fromCharCode`
applies `ToUint16`, sending `NaN` to 0. -/
def jsCharCode : Option Int → Nat
  | none => 0
  | some v => toUint16 v

/-- Render a list of UTF-16 code units as a string (no value produced by
the decoders below lands in the surrogate range). -/
def natsToString (l : List Nat) : String := String.mk (l.map Char.ofNat)

/-! ## The ABI string decoder (tryDecodeStringFromAbi) -/

/-- Bytes32 scan loop of `tryDecodeStringFromAbi` (TokenBalances.tsx
lines 65-75): decode byte pairs, `break` at a byte that is `=== 0`;
a `NaN` parse pushes code unit 0 and continues. -/
def scanBytes32 : List Char → List Nat
  | c1 :: c2 :: rest =>
    match jsParseIntHex [c1, c2] with
    | none => 0 :: scanBytes32 rest
    | some v => if v = 0 then [] else toUint16 v :: scanBytes32 rest
  | _ => []

/-- Byte-pair decode loop of the dynamic-string branch (TokenBalances.tsx
lines 83-86): no zero-byte break; a trailing lone digit is decoded as a
one-character slice. -/
def decodeHexPairs : List Char → List Nat
  | c1 :: c2 :: rest => jsCharCode (jsParseIntHex [c1, c2]) :: decodeHexPairs rest
  | [c] => [jsCharCode (jsParseIntHex [c])]
  | [] => []

/-- Dynamic-string branch of TokenBalances.tsx (lines 78-87): parse the
offset word (value unused but a parse failure throws), parse the length
word, then decode `slice(128, 128 + len * 2)`. -/
def dynamicDecodeTok (data : List Char) : Except Unit (List Nat) :=
  match bigIntOfHexTail (data.take 64) with
  | none => .error ()
  | some _ =>
    match bigIntOfHexTail ((data.drop 64).take 64) with
    | none => .error ()
    | some len => .ok (decodeHexPairs ((data.drop 128).take (2 * len.toNat)))

/-- Dynamic-string branch of NFTBalances.tsx (lines 74-81): identical
except the offset word is never parsed. -/
def dynamicDecodeNft (data : List Char) : Except Unit (List Nat) :=
  match bigIntOfHexTail ((data.drop 64).take 64) with
  | none => .error ()
  | some len => .ok (decodeHexPairs ((data.drop 128).take (2 * len.toNat)))

/-- `tryDecodeStringFromAbi` of TokenBalances.tsx with the `try`/`catch`
made explicit: an `.error` escaping this function would be an uncaught
exception, which never happens (see the totality theorem). -/
def tryDecodeStringFromAbiE (hex : String) : Except Unit (Option String) :=
  match hex.data with
  | [] => .ok none
  | '0' :: 'x' :: data =>
    let body : Except Unit (Option String) :=
      if data.length = 64 then
        let s := natsToString (scanBytes32 data)
        .ok (if s = "" then none else some s)
      else
        match dynamicDecodeTok data with
        | .error e => .error e
        | .ok bytes => .ok (some (natsToString bytes))
    match body with
    | .error _ => .ok none
    | .ok r => .ok r
  | _ => .ok none

/-- `tryDecodeStringFromAbi` (TokenBalances.tsx lines 60-91) as seen by
its callers. -/
def tryDecodeStringFromAbi (hex : String) : Option String :=
  match tryDecodeStringFromAbiE hex with
  | .ok r => r
  | .error _ => none

/-- NFTBalances.tsx `tryDecodeStringFromAbi` with explicit exceptions. -/
def tryDecodeStringFromAbiNftE (hex : String) : Except Unit (Option String) :=
  match hex.data with
  | [] => .ok none
  | '0' :: 'x' :: data =>
    let body : Except Unit (Option String) :=
      if data.length = 64 then
        let s := natsToString (scanBytes32 data)
        .ok (if s = "" then none else some s)
      else
        match dynamicDecodeNft data with
        | .error e => .error e
        | .ok bytes => .ok (some (natsToString bytes))
    match body with
    | .error _ => .ok none
    | .ok r => .ok r
  | _ => .ok none

/-- NFTBalances.tsx `tryDecodeStringFromAbi` as seen by its callers. -/
def tryDecodeStringFromAbiNft (hex : String) : Option String :=
  match tryDecodeStringFromAbiNftE hex with
  | .ok r => r
  | .error _ => none

/-! ## pad32 and formatUnits -/

/-- JS `s.padStart(n, "0")`: unchanged when already at least `n` long. -/
def jsPadStartZero (s : String) (n : Nat) : String :=
  if n ≤ s.length then s
  else String.mk (List.replicate (n - s.length) '0' ++ s.data)

/-- `pad32` (TokenBalances.tsx lines 38-40): `hexNo0x.padStart(64, "0")`. -/
def pad32 (hexNo0x : String) : String := jsPadStartZero hexNo0x 64

/-- Strip the maximal trailing run of `'0'` characters
(the regex `replace(/0+$/g, "")`). -/
def rstripZerosSrc (s : String) : String :=
  String.mk ((s.data.reverse.dropWhile (fun c => c == '0')).reverse)

/-- `formatUnits` (TokenBalances.tsx lines 126-135).  The source takes a
`bigint`; every amount reaching it is decoded from a `0x` hex word, so
the domain is the unsigned integers. -/
def formatUnits (wei : Nat) (decimals : Int) : String :=
  if decimals ≤ 0 then Nat.repr wei
  else
    let base : Nat := 10 ^ decimals.toNat
    let whole := wei / base
    let frac := wei % base
    let fracStr := jsPadStartZero (Nat.repr frac) decimals.toNat
    let trimmed := rstripZerosSrc fracStr
    if trimmed.length ≠ 0 then Nat.repr whole ++ "." ++ trimmed
    else Nat.repr whole

/-! ## Number(bigint) and getTokenMeta -/

/-- Bit length of a natural number by binary decomposition of the
exponent, exact for every number of fewer than 4096 bits.  Beyond that
the result is an underestimate, which is semantically invisible in
`natRoundDouble`: such numbers round far beyond `2 ^ 1024` under either
exponent choice, hence to `Infinity`, exactly as with the true bit
length. -/
def bitLen (m : Nat) : Nat :=
  let step := fun (p : Nat × Nat) (k : Nat) =>
    if 2 ^ k ≤ p.1 then (p.1 / 2 ^ k, p.2 + k) else p
  let r := [2048, 1024, 512, 256, 128, 64, 32, 16, 8, 4, 2, 1].foldl step (m, 0)
  if r.1 = 0 then 0 else r.2 + 1

/-- Round a natural number to the nearest IEEE-754 double
(round-half-to-even, 53-bit mantissa); `none` models overflow to
`Infinity`. -/
def natRoundDouble (m : Nat) : Option Nat :=
  if m < 2 ^ 53 then some m
  else
    let e := bitLen m - 53
    let q := m / 2 ^ e
    let r := m % 2 ^ e
    let q2 := if 2 * r > 2 ^ e ∨ (2 * r = 2 ^ e ∧ q % 2 = 1) then q + 1 else q
    if q2 * 2 ^ e < 2 ^ 1024 then some (q2 * 2 ^ e) else none

/-- JS `Number(bigint)`: round to the nearest double; `none` models a
non-finite (`±Infinity`) result, the case `Number.isFinite` rejects. -/
def jsNumberOfInt (n : Int) : Option Int :=
  match natRoundDouble n.natAbs with
  | none => none
  | some v => some (if n < 0 then -(v : Int) else (v : Int))

/-- The `Number.isFinite(decimals) ? decimals : 18` step of
`getTokenMeta` (TokenBalances.tsx line 114). -/
def finitizeDecimals (d : Int) : Int :=
  match jsNumberOfInt d with
  | some v => v
  | none => 18

/-- Fungible token metadata record (TokenBalances.tsx `TokenMeta`). -/
structure TokenMeta where
  address : String
  symbol : String
  decimals : Int
deriving DecidableEq

/-- Best-effort symbol step of `getTokenMeta` (TokenBalances.tsx lines
101-112): any `symbol()` transport failure is caught and any falsy
decode result (null or empty string) leaves the `"?"` default. -/
def symbolFromResult (symbolRpc : Except String String) : String :=
  match symbolRpc with
  | .error _ => "?"
  | .ok symbolRes =>
    match tryDecodeStringFromAbi symbolRes with
    | none => "?"
    | some s => if s = "" then "?" else s

/-- `getTokenMeta` (TokenBalances.tsx lines 93-115).  The two RPC calls
are inputs at the transport boundary: `.error` is a thrown `rpcCall`
failure, `.ok hex` a returned result string.  The `decimals()` call and
its `BigInt` conversion sit outside any `try`, so their failures
propagate. -/
def getTokenMeta (address : String) (decimalsRpc symbolRpc : Except String String) :
    Except String TokenMeta :=
  match decimalsRpc with
  | .error e => .error e
  | .ok decimalsHex =>
    match hexToBigInt decimalsHex with
    | none => .error "Cannot convert hex to a BigInt"
    | some d =>
      .ok { address := address, symbol := symbolFromResult symbolRpc,
            decimals := finitizeDecimals d }

/-! ## fetchBalances (page.tsx): batched JSON-RPC with id correlation -/

/-- JSON-RPC error object. -/
structure RpcErrorObj where
  code : Int
  message : String
deriving DecidableEq

/-- One element of the JSON-RPC batch response array. -/
structure RpcResponseMsg where
  id : Int
  result : Option String
  error : Option RpcErrorObj
deriving DecidableEq

/-- JS `Map.set`: replace the value when the key is present, otherwise
append in insertion order. -/
def assocSet {α β : Type} [DecidableEq α] (m : List (α × β)) (k : α) (v : β) :
    List (α × β) :=
  match m with
  | [] => [(k, v)]
  | (k1, v1) :: rest => if k1 = k then (k, v) :: rest else (k1, v1) :: assocSet rest k v

/-- JS `Map.get`. -/
def assocGet {α β : Type} [DecidableEq α] (m : List (α × β)) (k : α) : Option β :=
  match m with
  | [] => none
  | (k1, v1) :: rest => if k1 = k then some v1 else assocGet rest k

/-- The `byId` map of `fetchBalances` (page.tsx lines 44-45). -/
def buildById (data : List RpcResponseMsg) : List (Int × RpcResponseMsg) :=
  data.foldl (fun m r => assocSet m r.id r) []

/-- Per-request slot decode of `fetchBalances` (page.tsx lines 48-57):
missing response, error object, falsy result, or a `BigInt` parse
failure all yield `null`. -/
def decodeSlot (resp : Option RpcResponseMsg) : Option Int :=
  match resp with
  | none => none
  | some r =>
    if r.error.isSome then none
    else
      match r.result with
      | none => none
      | some hex => if hex = "" then none else jsBigIntOfString hex

/-- The id-correlation step of `fetchBalances` (page.tsx lines 43-58):
map over the requests in their original order, looking each id up in
the response map. -/
def reassemble (reqIds : List Int) (data : List RpcResponseMsg) : List (Option Int) :=
  reqIds.map (fun i => decodeSlot (assocGet (buildById data) i))

/-- `fetchBalances` (page.tsx lines 23-63): ids are `1..n` in address
order; `none` for the network argument models the outer catch (transport
failure), which yields all-null. -/
def fetchBalances (addresses : List String) (net : Option (List RpcResponseMsg)) :
    List (Option Int) :=
  match net with
  | none => addresses.map (fun _ => none)
  | some data => reassemble ((List.range addresses.length).map (fun i => (i : Int) + 1)) data

/-! ## Address validation, registry (addToken/removeToken), refresh -/

/-- Lowercasing as used for address keys (`toLowerCase` on ASCII). -/
def lowerStr (s : String) : String := String.mk (s.data.map Char.toLower)

/-- `isAddress` (TokenBalances.tsx lines 20-22): the regex
`^0x[a-fA-F0-9]{40}$`. -/
def isAddress (s : String) : Bool :=
  match s.data with
  | '0' :: 'x' :: rest => rest.length == 40 && rest.all isHexChar
  | _ => false

/-- Registry state: stored token addresses plus the addresses of
registrations whose `getTokenMeta` fetch is still in flight. -/
structure RegistryState where
  tokens : List String
  pending : List String
deriving DecidableEq

/-- Registry events.  `startAdd` is the synchronous prefix of `addToken`
(TokenBalances.tsx lines 166-177, NFTBalances.tsx lines 136-147):
validate, reject an already-registered lowercase address, then start the
metadata fetch.  `finishAdd i` is the continuation after the `await`
(line 179-182): append the fetched record, with no re-check.  `remove`
is `removeToken`'s token filter (line 191). -/
inductive RegistryEvent where
  | startAdd (addr : String)
  | finishAdd (i : Nat)
  | remove (addr : String)
deriving DecidableEq

/-- One registry transition. -/
def registryStep (s : RegistryState) : RegistryEvent → RegistryState
  | .startAdd addr =>
    if isAddress addr = false then s
    else if s.tokens.any (fun t => lowerStr t == lowerStr addr) then s
    else { s with pending := s.pending ++ [addr] }
  | .finishAdd i =>
    match s.pending[i]? with
    | none => s
    | some addr => { tokens := s.tokens ++ [addr], pending := s.pending.eraseIdx i }
  | .remove addr =>
    { s with tokens := s.tokens.filter (fun t => !(lowerStr t == lowerStr addr)) }

/-- Run a registry event trace from the empty registry. -/
def registryRun (events : List RegistryEvent) : RegistryState :=
  events.foldl registryStep { tokens := [], pending := [] }

/-- A completed (non-overlapping) `addToken`: the duplicate check and the
append happen with no other registration in between. -/
def addTokenAtomic (tokens : List String) (addr : String) : List String :=
  if isAddress addr = false then tokens
  else if tokens.any (fun t => lowerStr t == lowerStr addr) then tokens
  else tokens ++ [addr]

/-- Sequential registry operations. -/
inductive RegistryOp where
  | add (addr : String)
  | remove (addr : String)

/-- Apply one sequential registry operation. -/
def applyRegistryOp (tokens : List String) : RegistryOp → List String
  | .add a => addTokenAtomic tokens a
  | .remove a => tokens.filter (fun t => !(lowerStr t == lowerStr a))

/-! ## The refresh flow of TokenBalances.tsx (staleness, C2) -/

/-- A registered token as the `refresh` closure sees it. -/
structure TokenEntry where
  address : String
  decimals : Int
deriving DecidableEq

/-- One in-flight `refresh` invocation: the `token`/`wallet` pair it
captured and its local `cancelled` flag (TokenBalances.tsx line 206).
The closure that would set `cancelled` (lines 234-236) is returned from
the async function, but the `useEffect` caller (lines 250-253) discards
the promise, so no transition ever sets the flag. -/
structure Flight where
  token : String
  wallet : String
  decimals : Int
  cancelled : Bool
deriving DecidableEq

/-- Component state relevant to the balance store. -/
structure RefreshState where
  tokens : List TokenEntry
  walletByToken : List (String × String)
  activeAddr : Option String
  balances : List (String × Option String)
  flights : List Flight
deriving DecidableEq

/-- `activeWallet` (TokenBalances.tsx line 163): keyed by the exact
active address string, defaulting to the empty string. -/
def activeWalletOf (s : RefreshState) : String :=
  match s.activeAddr with
  | none => ""
  | some a => (assocGet s.walletByToken a).getD ""

/-- Events of the refresh flow.  `editWallet` is the wallet input's
onChange (line 322-325); `startRefresh` is the synchronous prefix of
`refresh` up to the `await getTokenBalance` (lines 205-219);
`resolveOk`/`resolveErr` are the continuations after that await (lines
219-230), guarded by the invocation's `cancelled` flag. -/
inductive RefreshEvent where
  | editWallet (token w : String)
  | startRefresh
  | resolveOk (i : Nat) (raw : Nat)
  | resolveErr (i : Nat)
deriving DecidableEq

/-- One refresh-flow transition. -/
def refreshStep (s : RefreshState) : RefreshEvent → RefreshState
  | .editWallet t w => { s with walletByToken := assocSet s.walletByToken t w }
  | .startRefresh =>
    match s.activeAddr with
    | none => s
    | some a =>
      match s.tokens.find? (fun t => lowerStr t.address == lowerStr a) with
      | none => s
      | some meta =>
        if isAddress (activeWalletOf s) = false then
          { s with balances := assocSet s.balances (lowerStr a) none }
        else
          { s with flights := s.flights ++
              [{ token := meta.address, wallet := activeWalletOf s,
                 decimals := meta.decimals, cancelled := false }] }
  | .resolveOk i raw =>
    match s.flights[i]? with
    | none => s
    | some f =>
      if f.cancelled then { s with flights := s.flights.eraseIdx i }
      else
        { s with
          balances := assocSet s.balances (lowerStr f.token)
            (some (formatUnits raw f.decimals)),
          flights := s.flights.eraseIdx i }
  | .resolveErr i =>
    match s.flights[i]? with
    | none => s
    | some f =>
      if f.cancelled then { s with flights := s.flights.eraseIdx i }
      else
        { s with balances := assocSet s.balances (lowerStr f.token) none,
                 flights := s.flights.eraseIdx i }

/-- Run a refresh event trace. -/
def refreshRun (init : RefreshState) (events : List RefreshEvent) : RefreshState :=
  events.foldl refreshStep init

/-! ## Specification-side definitions (for refinement statements) -/

/-- Modelled from the spec: pair up hex digits big-endian and take each
pair's byte value (the "following `L` bytes as the ASCII/UTF-8 payload"
reading of §4.3). -/
def hexPairsToBytes : List Char → List Nat
  | c1 :: c2 :: rest => (hv c1 * 16 + hv c2) :: hexPairsToBytes rest
  | [c] => [hv c]
  | [] => []

/-- Modelled from the spec: the fixed-bytes32 scan of §4.3 — "scan bytes
left to right, stop at the first zero byte (or end of buffer)". -/
def bytes32Run : List Char → List Nat
  | c1 :: c2 :: rest =>
    if hv c1 * 16 + hv c2 = 0 then []
    else (hv c1 * 16 + hv c2) :: bytes32Run rest
  | _ => []

/-- Modelled from the spec: strip trailing `'0'` characters, by direct
recursion (§4.6 "trailing zeros are stripped"). -/
def rstripZerosSpec : List Char → List Char
  | [] => []
  | c :: cs =>
    match rstripZerosSpec cs with
    | [] => if c = '0' then [] else [c]
    | r => c :: r

/-- Modelled from the spec: `format` of §4.6, with the fraction
"left-padded with zeros to exactly `decimals` digits" by replication and
trailing zeros stripped by `rstripZerosSpec`. -/
def formatUnitsSpec (wei : Nat) (decimals : Int) : String :=
  if decimals ≤ 0 then Nat.repr wei
  else
    let d := decimals.toNat
    let whole := wei / 10 ^ d
    let frac := wei % 10 ^ d
    let padded := List.replicate (d - (Nat.repr frac).length) '0' ++ (Nat.repr frac).data
    let trimmed := rstripZerosSpec padded
    if trimmed = [] then Nat.repr whole
    else Nat.repr whole ++ "." ++ String.mk trimmed

/-! ## Helper lemmas about the JS primitives -/

lemma hexVal_lt16 (c : Char) (v : Nat) (h : hexDigitVal? c = some v) : v < 16 := by
  unfold hexDigitVal? at h
  dsimp only at h
  split_ifs at h <;> simp_all <;> omega

lemma digitVal16_eq (c : Char) : digitVal? 16 c = hexDigitVal? c := by
  unfold digitVal?
  cases h : hexDigitVal? c with
  | none => rfl
  | some v => simp [hexVal_lt16 c v h]

lemma hv_lt16 (c : Char) (h : isHexChar c = true) : hv c < 16 := by
  unfold isHexChar at h
  cases hh : hexDigitVal? c with
  | none => rw [hh] at h; simp at h
  | some v => unfold hv; rw [hh]; exact hexVal_lt16 c v hh

lemma hexChar_not_ws (c : Char) (h : isHexChar c = true) : jsWhitespace c = false := by
  cases hws : jsWhitespace c
  · rfl
  · exfalso
    unfold jsWhitespace at hws
    simp only [Bool.or_eq_true, beq_iff_eq] at hws
    rcases hws with ((((((rfl | rfl) | rfl) | rfl) | rfl) | rfl) | rfl) | rfl <;>
      exact absurd h (by decide)

lemma hexChar_ne_dash (c : Char) (h : isHexChar c = true) : c ≠ '-' := by
  rintro rfl; exact absurd h (by decide)

lemma hexChar_ne_plus (c : Char) (h : isHexChar c = true) : c ≠ '+' := by
  rintro rfl; exact absurd h (by decide)

lemma hexChar_ne_x (c : Char) (h : isHexChar c = true) : c ≠ 'x' := by
  rintro rfl; exact absurd h (by decide)

lemma hexChar_ne_X (c : Char) (h : isHexChar c = true) : c ≠ 'X' := by
  rintro rfl; exact absurd h (by decide)

lemma dropWhile_all_false {p : Char → Bool} :
    ∀ l : List Char, (∀ c ∈ l, p c = false) → l.dropWhile p = l
  | [], _ => rfl
  | c :: l, h => by
    rw [List.dropWhile_cons, h c (by simp)]
    simp [dropWhile_all_false l (fun c hc => h c (by simp [hc]))]

lemma trimJsWs_id {l : List Char} (h : ∀ c ∈ l, jsWhitespace c = false) :
    trimJsWs l = l := by
  unfold trimJsWs
  rw [dropWhile_all_false l h,
    dropWhile_all_false l.reverse (fun c hc => h c (List.mem_reverse.mp hc)),
    List.reverse_reverse]

lemma toUint16_small (n : Nat) (h : n < 65536) : toUint16 (n : Int) = n := by
  unfold toUint16
  rw [Int.emod_eq_of_lt (by positivity) (by exact_mod_cast h)]
  simp

lemma getD_digitVal16 (c : Char) (_h : isHexChar c = true) :
    (digitVal? 16 c).getD 0 = hv c := by
  rw [digitVal16_eq]; rfl

lemma isSome_digitVal16 (c : Char) (h : isHexChar c = true) :
    (digitVal? 16 c).isSome = true := by
  rw [digitVal16_eq]; exact h

lemma bigIntOfHexTail_valid {l : List Char} (hne : l ≠ [])
    (hhex : l.all isHexChar = true) :
    bigIntOfHexTail l = some ((hexValNat l : Nat) : Int) := by
  have hmem : ∀ c ∈ l, isHexChar c = true := by
    intro c hc; exact List.all_eq_true.mp hhex c hc
  unfold bigIntOfHexTail jsBigIntOfString
  have hdata : (String.mk ('0' :: 'x' :: l)).data = '0' :: 'x' :: l := rfl
  rw [hdata, trimJsWs_id]
  · have : ('0' = '0' ∧ ('x' = 'x' ∨ 'x' = 'X')) := by simp
    simp only [this, if_true]
    unfold parseAllDigits
    have hall : l.all (fun c => (digitVal? 16 c).isSome) = true := by
      rw [List.all_eq_true]
      intro c hc
      exact isSome_digitVal16 c (hmem c hc)
    simp [hne, hall, hexValNat]
  · intro c hc
    rcases List.mem_cons.mp hc with rfl | hc
    · decide
    rcases List.mem_cons.mp hc with rfl | hc
    · decide
    · exact hexChar_not_ws c (hmem c hc)

lemma strip0x_pair (c1 c2 : Char) (hx : c2 ≠ 'x') (hX : c2 ≠ 'X') :
    strip0x [c1, c2] = [c1, c2] := by
  have hdef : strip0x [c1, c2] =
      if c1 = '0' ∧ (c2 = 'x' ∨ c2 = 'X') then [] else [c1, c2] := rfl
  rw [hdef, if_neg]
  rintro ⟨-, h | h⟩
  · exact hx h
  · exact hX h

lemma strip0x_single (c : Char) : strip0x [c] = [c] := rfl

lemma parseHexMag_pair (sign : Int) (c1 c2 : Char) (h1 : isHexChar c1 = true)
    (h2 : isHexChar c2 = true) :
    parseHexMag sign [c1, c2] = some (sign * ((hv c1 * 16 + hv c2 : Nat) : Int)) := by
  unfold parseHexMag
  rw [strip0x_pair c1 c2 (hexChar_ne_x c2 h2) (hexChar_ne_X c2 h2),
    List.takeWhile_cons_of_pos h1, List.takeWhile_cons_of_pos h2,
    List.takeWhile_nil]
  simp [hexValNat, valueInBase, getD_digitVal16 c1 h1, getD_digitVal16 c2 h2]

lemma parseHexMag_single (sign : Int) (c : Char) (h : isHexChar c = true) :
    parseHexMag sign [c] = some (sign * ((hv c : Nat) : Int)) := by
  unfold parseHexMag
  rw [strip0x_single, List.takeWhile_cons_of_pos h, List.takeWhile_nil]
  simp [hexValNat, valueInBase, getD_digitVal16 c h]

lemma jsParseIntHex_pair (c1 c2 : Char) (h1 : isHexChar c1 = true)
    (h2 : isHexChar c2 = true) :
    jsParseIntHex [c1, c2] = some ((hv c1 * 16 + hv c2 : Nat) : Int) := by
  unfold jsParseIntHex
  rw [dropWhile_all_false [c1, c2] (by
    intro c hc
    rcases List.mem_cons.mp hc with rfl | hc
    · exact hexChar_not_ws c h1
    rcases List.mem_cons.mp hc with rfl | hc
    · exact hexChar_not_ws c h2
    · simp at hc)]
  simp only [if_neg (hexChar_ne_dash c1 h1), if_neg (hexChar_ne_plus c1 h1)]
  rw [parseHexMag_pair 1 c1 c2 h1 h2]
  simp

lemma jsParseIntHex_single (c : Char) (h : isHexChar c = true) :
    jsParseIntHex [c] = some ((hv c : Nat) : Int) := by
  unfold jsParseIntHex
  rw [dropWhile_all_false [c] (by
    intro d hd
    rcases List.mem_cons.mp hd with rfl | hd
    · exact hexChar_not_ws d h
    · simp at hd)]
  simp only [if_neg (hexChar_ne_dash c h), if_neg (hexChar_ne_plus c h)]
  rw [parseHexMag_single 1 c h]
  simp

lemma decodeHexPairs_eq_spec : ∀ l : List Char, l.all isHexChar = true →
    decodeHexPairs l = hexPairsToBytes l
  | [], _ => rfl
  | [c], h => by
    have hc : isHexChar c = true := by simpa using h
    have hb : hv c < 65536 := lt_trans (hv_lt16 c hc) (by norm_num)
    simp [decodeHexPairs, hexPairsToBytes, jsParseIntHex_single c hc, jsCharCode,
      toUint16_small (hv c) hb]
  | c1 :: c2 :: rest, h => by
    have h1 : isHexChar c1 = true := by
      have := List.all_eq_true.mp h c1 (by simp); simpa using this
    have h2 : isHexChar c2 = true := by
      have := List.all_eq_true.mp h c2 (by simp); simpa using this
    have hrest : rest.all isHexChar = true := by
      rw [List.all_eq_true]
      intro c hc
      exact List.all_eq_true.mp h c (by simp [hc])
    have hb : hv c1 * 16 + hv c2 < 65536 := by
      have := hv_lt16 c1 h1; have := hv_lt16 c2 h2; omega
    have key : jsCharCode (jsParseIntHex [c1, c2]) = hv c1 * 16 + hv c2 := by
      rw [jsParseIntHex_pair c1 c2 h1 h2]
      exact toUint16_small _ hb
    simp [decodeHexPairs, hexPairsToBytes, key, decodeHexPairs_eq_spec rest hrest]

lemma scanBytes32_eq_spec : ∀ l : List Char, l.all isHexChar = true →
    scanBytes32 l = bytes32Run l
  | [], _ => rfl
  | [c], _ => rfl
  | c1 :: c2 :: rest, h => by
    have h1 : isHexChar c1 = true := by
      have := List.all_eq_true.mp h c1 (by simp); simpa using this
    have h2 : isHexChar c2 = true := by
      have := List.all_eq_true.mp h c2 (by simp); simpa using this
    have hrest : rest.all isHexChar = true := by
      rw [List.all_eq_true]
      intro c hc
      exact List.all_eq_true.mp h c (by simp [hc])
    have hb : hv c1 * 16 + hv c2 < 65536 := by
      have := hv_lt16 c1 h1; have := hv_lt16 c2 h2; omega
    have hpair := jsParseIntHex_pair c1 c2 h1 h2
    simp only [scanBytes32, bytes32Run, hpair]
    by_cases hz : hv c1 * 16 + hv c2 = 0
    · rw [if_pos (by exact_mod_cast hz), if_pos hz]
    · rw [if_neg (by exact_mod_cast hz), if_neg hz, toUint16_small _ hb,
        scanBytes32_eq_spec rest hrest]

lemma tryDecodeE_cons_eq (data : List Char) :
    tryDecodeStringFromAbiE (String.mk ('0' :: 'x' :: data)) =
      (match (if data.length = 64 then
          (Except.ok (if natsToString (scanBytes32 data) = "" then none
                      else some (natsToString (scanBytes32 data))) : Except Unit (Option String))
        else
          match dynamicDecodeTok data with
          | .error e => .error e
          | .ok bytes => .ok (some (natsToString bytes))) with
      | .error _ => .ok none
      | .ok r => .ok r) := rfl

lemma tryDecodeNftE_cons_eq (data : List Char) :
    tryDecodeStringFromAbiNftE (String.mk ('0' :: 'x' :: data)) =
      (match (if data.length = 64 then
          (Except.ok (if natsToString (scanBytes32 data) = "" then none
                      else some (natsToString (scanBytes32 data))) : Except Unit (Option String))
        else
          match dynamicDecodeNft data with
          | .error e => .error e
          | .ok bytes => .ok (some (natsToString bytes))) with
      | .error _ => .ok none
      | .ok r => .ok r) := rfl

lemma tryDecode_len64 (data : List Char) (h64 : data.length = 64) :
    tryDecodeStringFromAbi (String.mk ('0' :: 'x' :: data)) =
      (if natsToString (scanBytes32 data) = "" then none
       else some (natsToString (scanBytes32 data))) := by
  unfold tryDecodeStringFromAbi
  rw [tryDecodeE_cons_eq, if_pos h64]

lemma tryDecode_dyn_ok (data : List Char) (bytes : List Nat) (hlen : data.length ≠ 64)
    (hok : dynamicDecodeTok data = .ok bytes) :
    tryDecodeStringFromAbi (String.mk ('0' :: 'x' :: data)) = some (natsToString bytes) := by
  unfold tryDecodeStringFromAbi
  rw [tryDecodeE_cons_eq, if_neg hlen, hok]

lemma tryDecode_dyn_err (data : List Char) (hlen : data.length ≠ 64)
    (herr : dynamicDecodeTok data = .error ()) :
    tryDecodeStringFromAbi (String.mk ('0' :: 'x' :: data)) = none := by
  unfold tryDecodeStringFromAbi
  rw [tryDecodeE_cons_eq, if_neg hlen, herr]

lemma tryDecodeNft_dyn_ok (data : List Char) (bytes : List Nat) (hlen : data.length ≠ 64)
    (hok : dynamicDecodeNft data = .ok bytes) :
    tryDecodeStringFromAbiNft (String.mk ('0' :: 'x' :: data)) = some (natsToString bytes) := by
  unfold tryDecodeStringFromAbiNft
  rw [tryDecodeNftE_cons_eq, if_neg hlen, hok]

lemma dynamicDecodeTok_valid (w1 w2 tail : List Char)
    (hw1l : w1.length = 64) (hw2l : w2.length = 64)
    (hw1 : w1.all isHexChar = true) (hw2 : w2.all isHexChar = true) :
    dynamicDecodeTok (w1 ++ (w2 ++ tail)) =
      .ok (decodeHexPairs (tail.take (2 * hexValNat w2))) := by
  have htake : (w1 ++ (w2 ++ tail)).take 64 = w1 := by
    rw [List.take_left' hw1l]
  have hdrop : (w1 ++ (w2 ++ tail)).drop 64 = w2 ++ tail := by
    rw [List.drop_left' hw1l]
  have htake2 : (w2 ++ tail).take 64 = w2 := by
    rw [List.take_left' hw2l]
  have hdrop128 : (w1 ++ (w2 ++ tail)).drop 128 = tail := by
    rw [← List.append_assoc, List.drop_left' (by rw [List.length_append, hw1l, hw2l])]
  have hne1 : w1 ≠ [] := by intro h; rw [h] at hw1l; simp at hw1l
  have hne2 : w2 ≠ [] := by intro h; rw [h] at hw2l; simp at hw2l
  unfold dynamicDecodeTok
  rw [htake, hdrop, htake2, hdrop128, bigIntOfHexTail_valid hne1 hw1,
    bigIntOfHexTail_valid hne2 hw2]
  simp

lemma dynamicDecodeNft_valid (w1 w2 tail : List Char)
    (hw1l : w1.length = 64) (hw2l : w2.length = 64)
    (hw2 : w2.all isHexChar = true) :
    dynamicDecodeNft (w1 ++ (w2 ++ tail)) =
      .ok (decodeHexPairs (tail.take (2 * hexValNat w2))) := by
  have hdrop : (w1 ++ (w2 ++ tail)).drop 64 = w2 ++ tail := by
    rw [List.drop_left' hw1l]
  have htake2 : (w2 ++ tail).take 64 = w2 := by
    rw [List.take_left' hw2l]
  have hdrop128 : (w1 ++ (w2 ++ tail)).drop 128 = tail := by
    rw [← List.append_assoc, List.drop_left' (by rw [List.length_append, hw1l, hw2l])]
  have hne2 : w2 ≠ [] := by intro h; rw [h] at hw2l; simp at hw2l
  unfold dynamicDecodeNft
  rw [hdrop, htake2, hdrop128, bigIntOfHexTail_valid hne2 hw2]
  simp

/-! ## Claim C10: totality of the decoder -/

lemma tryDecodeE_isOk (hex : String) : ∃ o, tryDecodeStringFromAbiE hex = .ok o := by
  unfold tryDecodeStringFromAbiE
  split
  · exact ⟨none, rfl⟩
  · split
    · exact ⟨_, rfl⟩
    · split
      · exact ⟨none, rfl⟩
      · exact ⟨_, rfl⟩
  · exact ⟨none, rfl⟩

lemma tryDecodeNftE_isOk (hex : String) : ∃ o, tryDecodeStringFromAbiNftE hex = .ok o := by
  unfold tryDecodeStringFromAbiNftE
  split
  · exact ⟨none, rfl⟩
  · split
    · exact ⟨_, rfl⟩
    · split
      · exact ⟨none, rfl⟩
      · exact ⟨_, rfl⟩
  · exact ⟨none, rfl⟩

/-- C10: `tryDecodeStringFromAbi` is total at its public interface.  In
the exception-explicit embedding (`tryDecodeStringFromAbiE`, where every
potentially-throwing JS primitive is modelled in `Except` and the
function's `try`/`catch` is explicit), every input string whatsoever —
empty, missing the `0x` prefix, odd length, arbitrary characters —
produces a normal `.ok` return carrying either a string or null, never a
propagated exception; this holds for both the TokenBalances.tsx and
NFTBalances.tsx copies of the function. -/
theorem c10_decoder_total_never_throws :
    ∀ hex : String,
      tryDecodeStringFromAbiE hex = .ok (tryDecodeStringFromAbi hex) ∧
      tryDecodeStringFromAbiNftE hex = .ok (tryDecodeStringFromAbiNft hex) := by
  intro hex
  constructor
  · obtain ⟨o, ho⟩ := tryDecodeE_isOk hex
    rw [ho]
    unfold tryDecodeStringFromAbi
    rw [ho]
  · obtain ⟨o, ho⟩ := tryDecodeNftE_isOk hex
    rw [ho]
    unfold tryDecodeStringFromAbiNft
    rw [ho]

/-! ## Claim C5: fixed bytes32 decode -/

/-- C5: on a payload of exactly 64 hex digits the decoder follows the
fixed-bytes32 convention: scan byte pairs left to right, stop at the
first zero byte or the end of the buffer, decode the consumed bytes as
Latin-1 code points, and return null when the consumed run is empty; in
particular ASCII "USDC" zero-padded to 32 bytes decodes to "USDC". -/
theorem c5_fixed_bytes32_decode :
    (∀ data : List Char, data.length = 64 → data.all isHexChar = true →
      tryDecodeStringFromAbi (String.mk ('0' :: 'x' :: data)) =
        (if bytes32Run data = [] then none
         else some (String.mk ((bytes32Run data).map Char.ofNat)))) ∧
    tryDecodeStringFromAbi ("0x55534443" ++ String.mk (List.replicate 56 '0')) =
      some "USDC" := by
  constructor
  · intro data h64 hhex
    rw [tryDecode_len64 data h64, scanBytes32_eq_spec data hhex]
    by_cases he : bytes32Run data = []
    · rw [if_pos he, if_pos (by rw [he]; rfl)]
    · rw [if_neg he, if_neg (by
        unfold natsToString
        intro hc
        apply he
        have : (bytes32Run data).map Char.ofNat = [] := by
          have := congrArg String.data hc
          simpa using this
        simpa using this)]
      rfl
  · decide

/-- C5 witness: the general part applied at the concrete "USDC" payload. -/
theorem c5_fixed_bytes32_decode_witness :
    tryDecodeStringFromAbi (String.mk ('0' :: 'x' ::
        ('5' :: '5' :: '5' :: '3' :: '4' :: '4' :: '4' :: '3' ::
          List.replicate 56 '0'))) =
      (if bytes32Run ('5' :: '5' :: '5' :: '3' :: '4' :: '4' :: '4' :: '3' ::
          List.replicate 56 '0') = [] then none
       else some (String.mk ((bytes32Run ('5' :: '5' :: '5' :: '3' :: '4' :: '4' ::
          '4' :: '3' :: List.replicate 56 '0')).map Char.ofNat))) :=
  c5_fixed_bytes32_decode.1 _ (by decide) (by decide)

/-! ## Claim C4: dynamic string decode -/

set_option maxRecDepth 4000 in
/-- C4: on a hex payload longer than 64 digits consisting of a 64-digit
offset word `w1`, a 64-digit length word `w2`, the `2 * L` payload
digits (`L` the value of `w2`) and arbitrary trailing padding, the
decoder reads the length from the second word, decodes exactly the `L`
bytes starting right after the two header words, and is completely
independent of the offset word's value (`w1` is universally quantified,
and NFTBalances.tsx never parses it); in particular the payload with
offset = 32, length = 3, data "ABC" padded to a word boundary decodes to
"ABC". -/
theorem c4_dynamic_string_decode :
    (∀ w1 w2 payload pad : List Char,
      w1.length = 64 → w2.length = 64 →
      w1.all isHexChar = true → w2.all isHexChar = true →
      payload.all isHexChar = true → payload.length = 2 * hexValNat w2 →
      tryDecodeStringFromAbi (String.mk ('0' :: 'x' :: (w1 ++ (w2 ++ (payload ++ pad))))) =
          some (String.mk ((hexPairsToBytes payload).map Char.ofNat)) ∧
      tryDecodeStringFromAbiNft (String.mk ('0' :: 'x' :: (w1 ++ (w2 ++ (payload ++ pad))))) =
          some (String.mk ((hexPairsToBytes payload).map Char.ofNat))) ∧
    tryDecodeStringFromAbi ("0x" ++ String.mk (List.replicate 62 '0') ++ "20" ++
        String.mk (List.replicate 62 '0') ++ "03" ++ "414243" ++
        String.mk (List.replicate 58 '0')) = some "ABC" := by
  constructor
  · intro w1 w2 payload pad hw1l hw2l hw1 hw2 hpayload hplen
    have hlen : (w1 ++ (w2 ++ (payload ++ pad))).length ≠ 64 := by
      simp only [List.length_append, hw1l, hw2l]
      omega
    have htake : (payload ++ pad).take (2 * hexValNat w2) = payload :=
      List.take_left' hplen
    have hdecode : decodeHexPairs ((payload ++ pad).take (2 * hexValNat w2)) =
        hexPairsToBytes payload := by
      rw [htake]
      exact decodeHexPairs_eq_spec payload hpayload
    constructor
    · rw [tryDecode_dyn_ok _ _ hlen (by
        rw [dynamicDecodeTok_valid w1 w2 (payload ++ pad) hw1l hw2l hw1 hw2, hdecode])]
      rfl
    · rw [tryDecodeNft_dyn_ok _ _ hlen (by
        rw [dynamicDecodeNft_valid w1 w2 (payload ++ pad) hw1l hw2l hw2, hdecode])]
      rfl
  · decide

set_option maxRecDepth 4000 in
/-- C4 witness: the general part applied to the concrete
offset = 32 / length = 3 / "ABC" payload, with hypotheses discharged by
evaluation. -/
theorem c4_dynamic_string_decode_witness :
    tryDecodeStringFromAbi (String.mk ('0' :: 'x' ::
        ((List.replicate 62 '0' ++ ['2', '0']) ++
          ((List.replicate 62 '0' ++ ['0', '3']) ++
            (['4', '1', '4', '2', '4', '3'] ++ List.replicate 58 '0'))))) =
      some (String.mk ((hexPairsToBytes ['4', '1', '4', '2', '4', '3']).map Char.ofNat)) ∧
    tryDecodeStringFromAbiNft (String.mk ('0' :: 'x' ::
        ((List.replicate 62 '0' ++ ['2', '0']) ++
          ((List.replicate 62 '0' ++ ['0', '3']) ++
            (['4', '1', '4', '2', '4', '3'] ++ List.replicate 58 '0'))))) =
      some (String.mk ((hexPairsToBytes ['4', '1', '4', '2', '4', '3']).map Char.ofNat)) :=
  c4_dynamic_string_decode.1
    (List.replicate 62 '0' ++ ['2', '0'])
    (List.replicate 62 '0' ++ ['0', '3'])
    ['4', '1', '4', '2', '4', '3']
    (List.replicate 58 '0')
    (by decide) (by decide) (by decide) (by decide) (by decide) (by decide)

/-! ## Claim C7: decode failure paths -/

set_option maxRecDepth 4000 in
/-- C7 counterexample: a truncated buffer — length header announcing 3
bytes with only one payload byte (`41`) present — does not yield a
decode failure: the decoder returns the string "A" built from the bytes
actually present, refuting the claim that every truncated buffer yields
null. -/
theorem c7_truncated_buffer_counterexample :
    tryDecodeStringFromAbi ("0x" ++ String.mk (List.replicate 64 '0') ++
        String.mk (List.replicate 62 '0') ++ "03" ++ "41") = some "A" ∧
    tryDecodeStringFromAbi ("0x" ++ String.mk (List.replicate 64 '0') ++
        String.mk (List.replicate 62 '0') ++ "03" ++ "41") ≠ none := by
  constructor <;> decide

lemma dynamicDecodeTok_err_of_lenword (data : List Char)
    (hlenword : bigIntOfHexTail ((data.drop 64).take 64) = none) :
    dynamicDecodeTok data = .error () := by
  unfold dynamicDecodeTok
  cases h1 : bigIntOfHexTail (data.take 64) with
  | none => rfl
  | some v => rw [hlenword]

/-- C7 amended: a decode path only yields null when a header-word parse
throws: whenever the length-word slice fails to parse as hex (a
non-numeric length header, or hex too short to populate the length word,
including short odd-length inputs) the decoder returns null; whenever
both header words parse, it returns a string — and for a truncated
buffer that string decodes exactly the payload bytes actually present,
which may be fewer than the length header announces. -/
theorem c7_decode_failure_paths :
    (∀ data : List Char, data.length ≠ 64 →
        bigIntOfHexTail ((data.drop 64).take 64) = none →
        tryDecodeStringFromAbi (String.mk ('0' :: 'x' :: data)) = none) ∧
    (∀ data : List Char, data.length ≠ 64 →
        (bigIntOfHexTail (data.take 64)).isSome = true →
        (bigIntOfHexTail ((data.drop 64).take 64)).isSome = true →
        ∃ s, tryDecodeStringFromAbi (String.mk ('0' :: 'x' :: data)) = some s) ∧
    (∀ w1 w2 avail : List Char, w1.length = 64 → w2.length = 64 →
        w1.all isHexChar = true → w2.all isHexChar = true →
        avail.length < 2 * hexValNat w2 →
        tryDecodeStringFromAbi (String.mk ('0' :: 'x' :: (w1 ++ (w2 ++ avail)))) =
          some (natsToString (decodeHexPairs avail))) := by
  refine ⟨?_, ?_, ?_⟩
  · intro data hlen hlenword
    exact tryDecode_dyn_err data hlen (dynamicDecodeTok_err_of_lenword data hlenword)
  · intro data hlen hoff hlenw
    obtain ⟨voff, hvoff⟩ := Option.isSome_iff_exists.mp hoff
    obtain ⟨vlen, hvlen⟩ := Option.isSome_iff_exists.mp hlenw
    refine ⟨natsToString (decodeHexPairs ((data.drop 128).take (2 * vlen.toNat))),
      tryDecode_dyn_ok data (decodeHexPairs ((data.drop 128).take (2 * vlen.toNat)))
        hlen ?_⟩
    unfold dynamicDecodeTok
    rw [hvoff, hvlen]
  · intro w1 w2 avail hw1l hw2l hw1 hw2 havail
    have hlen : (w1 ++ (w2 ++ avail)).length ≠ 64 := by
      simp only [List.length_append, hw1l, hw2l]
      omega
    have htake : avail.take (2 * hexValNat w2) = avail :=
      List.take_of_length_le (le_of_lt havail)
    refine tryDecode_dyn_ok _ _ hlen ?_
    rw [dynamicDecodeTok_valid w1 w2 avail hw1l hw2l hw1 hw2, htake]

set_option maxRecDepth 4000 in
/-- C7 witness: the three amended parts applied at concrete inputs — a
too-short input with an unparseable length word yields null; an
all-zero 129-digit input with parseable headers yields a string; and the
truncated header-3/one-byte input decodes only the present byte. -/
theorem c7_decode_failure_paths_witness :
    tryDecodeStringFromAbi (String.mk ('0' :: 'x' :: ['z'])) = none ∧
    (∃ s, tryDecodeStringFromAbi (String.mk ('0' :: 'x' :: List.replicate 129 '0')) =
      some s) ∧
    tryDecodeStringFromAbi (String.mk ('0' :: 'x' ::
        (List.replicate 64 '0' ++ ((List.replicate 62 '0' ++ ['0', '3']) ++ ['4', '1'])))) =
      some (natsToString (decodeHexPairs ['4', '1'])) :=
  ⟨c7_decode_failure_paths.1 ['z'] (by decide) (by decide),
   c7_decode_failure_paths.2.1 (List.replicate 129 '0') (by decide) (by decide) (by decide),
   c7_decode_failure_paths.2.2 (List.replicate 64 '0') (List.replicate 62 '0' ++ ['0', '3'])
     ['4', '1'] (by decide) (by decide) (by decide) (by decide) (by decide)⟩

/-! ## Claim C8: pad32 -/

/-- C8 counterexample: `pad32` on a 65-digit input does not fail with an
`OversizeValue` error — `padStart` returns the string unchanged (still
65 characters long), so no failure of any kind occurs. -/
theorem c8_oversize_counterexample :
    pad32 (String.mk (List.replicate 65 'a')) = String.mk (List.replicate 65 'a') ∧
    (pad32 (String.mk (List.replicate 65 'a'))).length = 65 := by
  constructor <;> decide

/-- C8 amended: `pad32` left-pads every string of at most 64 characters
with `'0'` to exactly 64 characters, and returns every longer string
unchanged — it never fails. -/
theorem c8_pad32_behaviour :
    ∀ s : String,
      (s.length ≤ 64 →
        pad32 s = String.mk (List.replicate (64 - s.length) '0' ++ s.data) ∧
        (pad32 s).length = 64) ∧
      (64 < s.length → pad32 s = s) := by
  intro s
  constructor
  · intro hle
    unfold pad32 jsPadStartZero
    by_cases h : 64 ≤ s.length
    · have h64 : s.length = 64 := le_antisymm hle h
      rw [if_pos h]
      constructor
      · rw [h64]
        simp
      · exact h64
    · rw [if_neg h]
      refine ⟨rfl, ?_⟩
      have hlen : (String.mk (List.replicate (64 - s.length) '0' ++ s.data)).length
          = (List.replicate (64 - s.length) '0' ++ s.data).length := rfl
      have hdl : s.data.length = s.length := rfl
      rw [hlen, List.length_append, List.length_replicate, hdl]
      omega
  · intro hgt
    unfold pad32 jsPadStartZero
    rw [if_pos (by omega)]

/-- C8 witness: the amended behaviour at "abc" (padded to 64) and at a
70-character string (returned unchanged). -/
theorem c8_pad32_behaviour_witness :
    (pad32 "abc" = String.mk (List.replicate (64 - ("abc" : String).length) '0' ++
        ("abc" : String).data) ∧
      (pad32 "abc").length = 64) ∧
    pad32 (String.mk (List.replicate 70 'b')) = String.mk (List.replicate 70 'b') :=
  ⟨(c8_pad32_behaviour "abc").1 (by decide),
   (c8_pad32_behaviour (String.mk (List.replicate 70 'b'))).2 (by decide)⟩

/-! ## Claim C6: formatUnits -/

lemma dropWhile_append_nil {p : Char → Bool} :
    ∀ l1 l2 : List Char, l1.dropWhile p = [] →
      (l1 ++ l2).dropWhile p = l2.dropWhile p
  | [], _, _ => rfl
  | c :: l1, l2, h => by
    rw [List.dropWhile_cons] at h
    by_cases hc : p c = true
    · rw [List.cons_append, List.dropWhile_cons, if_pos hc]
      rw [if_pos hc] at h
      exact dropWhile_append_nil l1 l2 h
    · rw [if_neg hc] at h
      simp at h

lemma dropWhile_append_ne {p : Char → Bool} :
    ∀ l1 l2 : List Char, l1.dropWhile p ≠ [] →
      (l1 ++ l2).dropWhile p = l1.dropWhile p ++ l2
  | [], _, h => absurd rfl h
  | c :: l1, l2, h => by
    rw [List.dropWhile_cons] at h
    by_cases hc : p c = true
    · rw [List.cons_append, List.dropWhile_cons, if_pos hc]
      rw [if_pos hc] at h
      rw [List.dropWhile_cons, if_pos hc]
      exact dropWhile_append_ne l1 l2 h
    · rw [List.cons_append, List.dropWhile_cons, if_neg hc,
        List.dropWhile_cons, if_neg hc, List.cons_append]

lemma rstripZeros_eq_dropWhile :
    ∀ l : List Char,
      rstripZerosSpec l = (l.reverse.dropWhile (fun c => c == '0')).reverse
  | [] => rfl
  | c :: cs => by
    have ih := rstripZeros_eq_dropWhile cs
    simp only [rstripZerosSpec]
    rw [ih, List.reverse_cons]
    by_cases hz : cs.reverse.dropWhile (fun c => c == '0') = []
    · rw [hz, dropWhile_append_nil _ _ hz, List.dropWhile_cons, List.dropWhile_nil]
      by_cases hc : c = '0'
      · rw [if_pos (by simp [hc])]
        simp [hc]
      · rw [if_neg (by simp [hc])]
        simp [hc]
    · rw [dropWhile_append_ne _ _ hz, List.reverse_append]
      rcases hr : (cs.reverse.dropWhile (fun c => c == '0')).reverse with _ | ⟨a, r⟩
      · exfalso
        apply hz
        have := congrArg List.reverse hr
        simpa using this
      · simp

lemma jsPadStartZero_eq (s : String) (n : Nat) :
    jsPadStartZero s n = String.mk (List.replicate (n - s.length) '0' ++ s.data) := by
  unfold jsPadStartZero
  by_cases h : n ≤ s.length
  · rw [if_pos h, Nat.sub_eq_zero_of_le h]
    simp
  · rw [if_neg h]

lemma formatUnits_eq_spec (wei : Nat) (decimals : Int) :
    formatUnits wei decimals = formatUnitsSpec wei decimals := by
  unfold formatUnits formatUnitsSpec
  by_cases hd : decimals ≤ 0
  · rw [if_pos hd, if_pos hd]
  · rw [if_neg hd, if_neg hd]
    dsimp only
    have hpad := jsPadStartZero_eq (Nat.repr (wei % 10 ^ decimals.toNat)) decimals.toNat
    set padded := List.replicate (decimals.toNat - (Nat.repr (wei % 10 ^ decimals.toNat)).length) '0'
        ++ (Nat.repr (wei % 10 ^ decimals.toNat)).data with hpadded
    have hmkdata : (String.mk padded).data = padded := rfl
    have htrim : rstripZerosSrc (jsPadStartZero (Nat.repr (wei % 10 ^ decimals.toNat))
        decimals.toNat) = String.mk (rstripZerosSpec padded) := by
      rw [hpad]
      unfold rstripZerosSrc
      rw [hmkdata, rstripZeros_eq_dropWhile]
    rw [htrim]
    have hlen : (String.mk (rstripZerosSpec padded)).length = (rstripZerosSpec padded).length := rfl
    by_cases hz : rstripZerosSpec padded = []
    · rw [if_neg (by rw [hlen, hz]; simp), if_pos hz]
    · rw [if_pos (by
        rw [hlen]
        intro hcon
        exact hz (List.length_eq_zero.mp hcon)), if_neg hz]

/-- C6: `formatUnits` agrees everywhere with the specification's
`format`: for `decimals <= 0` it is the plain decimal rendering of the
amount; otherwise it renders `whole = amount / 10^decimals`, and the
fraction `amount % 10^decimals` left-padded with zeros to exactly
`decimals` digits with trailing zeros stripped, omitting the `.` when
the stripped fraction is empty — with exact bignum arithmetic; the four
specification examples evaluate as stated. -/
theorem c6_formatUnits_correct :
    (∀ (wei : Nat) (decimals : Int), formatUnits wei decimals = formatUnitsSpec wei decimals) ∧
    formatUnits 1234567890123456789 18 = "1.234567890123456789" ∧
    formatUnits 1000000000000000000 18 = "1" ∧
    formatUnits 0 18 = "0" ∧
    formatUnits 5 0 = "5" := by
  refine ⟨formatUnits_eq_spec, by decide, by decide, by decide, by decide⟩

/-! ## Claim C1: batch correlation in fetchBalances -/

/-- Characterisation of the JS `Map` built by `buildById`: the winning
entry for an id is the last response carrying that id. -/
def lastWithId (data : List RpcResponseMsg) (i : Int) : Option RpcResponseMsg :=
  match data with
  | [] => none
  | r :: rest =>
    match lastWithId rest i with
    | some x => some x
    | none => if r.id = i then some r else none

lemma assocGet_assocSet (m : List (Int × RpcResponseMsg)) (k : Int) (v : RpcResponseMsg)
    (q : Int) :
    assocGet (assocSet m k v) q = if k = q then some v else assocGet m q := by
  induction m with
  | nil => simp [assocSet, assocGet]
  | cons hd rest ih =>
    obtain ⟨k1, v1⟩ := hd
    by_cases hk : k1 = k
    · subst hk
      by_cases hq : k1 = q <;> simp [assocSet, assocGet, hq]
    · by_cases hq : k1 = q
      · subst hq
        have hkq : ¬k = k1 := fun h => hk h.symm
        simp [assocSet, assocGet, hk, hkq]
      · simp [assocSet, assocGet, hk, hq, ih]

lemma lastWithId_cons (r : RpcResponseMsg) (rest : List RpcResponseMsg) (i : Int) :
    lastWithId (r :: rest) i =
      (match lastWithId rest i with
       | some x => some x
       | none => if r.id = i then some r else none) := rfl

lemma foldl_assocSet_get :
    ∀ (data : List RpcResponseMsg) (m : List (Int × RpcResponseMsg)) (i : Int),
      assocGet (data.foldl (fun m r => assocSet m r.id r) m) i =
        (match lastWithId data i with
         | some r => some r
         | none => assocGet m i)
  | [], _, _ => rfl
  | r :: rest, m, i => by
    rw [List.foldl_cons, foldl_assocSet_get rest (assocSet m r.id r) i, lastWithId_cons]
    cases hrest : lastWithId rest i with
    | some x => rfl
    | none =>
      rw [assocGet_assocSet]
      by_cases hid : r.id = i
      · simp only [if_pos hid]
      · simp only [if_neg hid]

lemma buildById_get (data : List RpcResponseMsg) (i : Int) :
    assocGet (buildById data) i = lastWithId data i := by
  unfold buildById
  rw [foldl_assocSet_get data [] i]
  cases lastWithId data i <;> rfl

lemma lastWithId_mem :
    ∀ (data : List RpcResponseMsg) (i : Int) (r : RpcResponseMsg),
      lastWithId data i = some r → r ∈ data ∧ r.id = i
  | [], _, _, h => by simp [lastWithId] at h
  | r0 :: rest, i, r, h => by
    unfold lastWithId at h
    cases hrest : lastWithId rest i with
    | some x =>
      rw [hrest] at h
      obtain ⟨hm, hid⟩ := lastWithId_mem rest i x hrest
      cases h
      exact ⟨List.mem_cons_of_mem r0 hm, hid⟩
    | none =>
      rw [hrest] at h
      by_cases hid : r0.id = i
      · rw [if_pos hid] at h
        cases h
        exact ⟨List.mem_cons_self r0 rest, hid⟩
      · rw [if_neg hid] at h
        cases h

lemma lastWithId_none :
    ∀ (data : List RpcResponseMsg) (i : Int),
      lastWithId data i = none → ∀ r ∈ data, r.id ≠ i
  | [], _, _ => by intro r hr; simp at hr
  | r0 :: rest, i, h => by
    unfold lastWithId at h
    cases hrest : lastWithId rest i with
    | some x => rw [hrest] at h; cases h
    | none =>
      rw [hrest] at h
      intro r hr
      rcases List.mem_cons.mp hr with rfl | hr
      · by_cases hid : r.id = i
        · rw [if_pos hid] at h; cases h
        · exact hid
      · exact lastWithId_none rest i hrest r hr

lemma lastWithId_perm (data data' : List RpcResponseMsg)
    (hnd : (data.map RpcResponseMsg.id).Nodup) (hp : data.Perm data') (i : Int) :
    lastWithId data i = lastWithId data' i := by
  cases h : lastWithId data i with
  | none =>
    cases h' : lastWithId data' i with
    | none => rfl
    | some x =>
      obtain ⟨hm, hid⟩ := lastWithId_mem data' i x h'
      exact absurd hid (lastWithId_none data i h x (hp.symm.subset hm))
  | some r =>
    obtain ⟨hm, hid⟩ := lastWithId_mem data i r h
    cases h' : lastWithId data' i with
    | none =>
      exact absurd hid (lastWithId_none data' i h' r (hp.subset hm))
    | some r' =>
      obtain ⟨hm', hid'⟩ := lastWithId_mem data' i r' h'
      have : r = r' :=
        List.inj_on_of_nodup_map hnd hm (hp.symm.subset hm') (by rw [hid, hid'])
      rw [this]

/-- C1: within one batch, `fetchBalances` returns results in the
caller's original request order, re-associated to requests by numeric
id: permuting the response array of a batch whose responses have
pairwise-distinct ids never changes the output; for request ids
`[3, 1, 2]` and responses arriving ordered `[2, 3, 1]`, the output is
`[result_for_3, result_for_1, result_for_2]`; and a 3-address
`fetchBalances` call whose responses arrive in reversed order still
yields the balances in address order. -/
theorem c1_batch_results_in_request_order :
    (∀ (reqIds : List Int) (data data' : List RpcResponseMsg),
        (data.map RpcResponseMsg.id).Nodup → data.Perm data' →
        reassemble reqIds data = reassemble reqIds data') ∧
    reassemble [3, 1, 2]
        [⟨2, some "0x22", none⟩, ⟨3, some "0x33", none⟩, ⟨1, some "0x11", none⟩] =
      [some 0x33, some 0x11, some 0x22] ∧
    fetchBalances ["0xa", "0xb", "0xc"]
        (some [⟨3, some "0x30", none⟩, ⟨2, some "0x20", none⟩, ⟨1, some "0x10", none⟩]) =
      [some 0x10, some 0x20, some 0x30] := by
  refine ⟨?_, by decide, by decide⟩
  intro reqIds data data' hnd hp
  unfold reassemble
  apply List.map_congr_left
  intro i _
  rw [buildById_get, buildById_get, lastWithId_perm data data' hnd hp i]

/-- C1 witness: permutation invariance applied to the concrete
`[3, 1, 2]` batch and a reordering of its response array. -/
theorem c1_batch_results_in_request_order_witness :
    reassemble [3, 1, 2]
        [⟨2, some "0x22", none⟩, ⟨3, some "0x33", none⟩, ⟨1, some "0x11", none⟩] =
      reassemble [3, 1, 2]
        [⟨1, some "0x11", none⟩, ⟨2, some "0x22", none⟩, ⟨3, some "0x33", none⟩] :=
  c1_batch_results_in_request_order.1 [3, 1, 2]
    [⟨2, some "0x22", none⟩, ⟨3, some "0x33", none⟩, ⟨1, some "0x11", none⟩]
    [⟨1, some "0x11", none⟩, ⟨2, some "0x22", none⟩, ⟨3, some "0x33", none⟩]
    (by decide) (by decide)

/-! ## Claim C3: required decimals, best-effort symbol -/

/-- C3: `getTokenMeta` treats `decimals()` as required and `symbol()` as
best-effort: a `decimals()` transport failure propagates unchanged; a
failed `BigInt` decode of the decimals payload also fails the whole
fetch; a `symbol()` transport failure or a null string decode is
absorbed with `symbol = "?"` while the fetch still succeeds; and the
stored decimals value is the decoded number when `Number(bigint)` is
finite and `18` when it is not. -/
theorem c3_decimals_required_symbol_best_effort :
    (∀ (a e : String) (sym : Except String String),
        getTokenMeta a (.error e) sym = .error e) ∧
    (∀ (a hex : String) (sym : Except String String), hexToBigInt hex = none →
        ∃ e, getTokenMeta a (.ok hex) sym = .error e) ∧
    (∀ (a hex e : String) (d : Int), hexToBigInt hex = some d →
        getTokenMeta a (.ok hex) (.error e) = .ok ⟨a, "?", finitizeDecimals d⟩) ∧
    (∀ (a hex symHex : String) (d : Int), hexToBigInt hex = some d →
        tryDecodeStringFromAbi symHex = none →
        getTokenMeta a (.ok hex) (.ok symHex) = .ok ⟨a, "?", finitizeDecimals d⟩) ∧
    (∀ d : Int, jsNumberOfInt d = none → finitizeDecimals d = 18) ∧
    (∀ (d v : Int), jsNumberOfInt d = some v → finitizeDecimals d = v) := by
  refine ⟨?_, ?_, ?_, ?_, ?_, ?_⟩
  · intro a e sym
    rfl
  · intro a hex sym hfail
    unfold getTokenMeta
    dsimp only
    rw [hfail]
    exact ⟨_, rfl⟩
  · intro a hex e d hok
    unfold getTokenMeta
    dsimp only
    rw [hok]
    rfl
  · intro a hex symHex d hok hdec
    unfold getTokenMeta
    dsimp only
    rw [hok]
    unfold symbolFromResult
    dsimp only
    rw [hdec]
  · intro d hinf
    unfold finitizeDecimals
    rw [hinf]
  · intro d v hfin
    unfold finitizeDecimals
    rw [hfin]

set_option exponentiation.threshold 5000 in
set_option maxRecDepth 4000 in
/-- C3 witness: the six parts applied at concrete transport results — a
thrown decimals call, an unparseable decimals payload, a thrown symbol
call, an undecodable symbol payload, a decimals value of 2^1024 (not
finite as a JS number, coerced to 18) and the ordinary value 7. -/
theorem c3_decimals_required_symbol_best_effort_witness :
    getTokenMeta "0xt" (.error "HTTP 500") (.ok "0x12") = .error "HTTP 500" ∧
    (∃ e, getTokenMeta "0xt" (.ok "0xzz") (.ok "0x12") = .error e) ∧
    getTokenMeta "0xt" (.ok "0x12") (.error "down") =
      .ok ⟨"0xt", "?", finitizeDecimals 18⟩ ∧
    getTokenMeta "0xt" (.ok "0x12") (.ok "junk") =
      .ok ⟨"0xt", "?", finitizeDecimals 18⟩ ∧
    finitizeDecimals (Int.ofNat (2 ^ 1024)) = 18 ∧
    finitizeDecimals 7 = 7 :=
  ⟨c3_decimals_required_symbol_best_effort.1 "0xt" "HTTP 500" (.ok "0x12"),
   c3_decimals_required_symbol_best_effort.2.1 "0xt" "0xzz" (.ok "0x12") (by decide),
   c3_decimals_required_symbol_best_effort.2.2.1 "0xt" "0x12" "down" 18 (by decide),
   c3_decimals_required_symbol_best_effort.2.2.2.1 "0xt" "0x12" "junk" 18 (by decide)
     (by decide),
   c3_decimals_required_symbol_best_effort.2.2.2.2.1 (Int.ofNat (2 ^ 1024)) (by decide),
   c3_decimals_required_symbol_best_effort.2.2.2.2.2 7 7 (by decide)⟩

/-! ## Claim C2: staleness of in-flight refreshes -/

/-- Concrete token contract address used in the executions below. -/
def addrT : String := "0x" ++ String.mk (List.replicate 40 'a')

/-- Concrete wallet address first entered by the user. -/
def addrW1 : String := "0x" ++ String.mk (List.replicate 40 'b')

/-- Concrete wallet address the user switches to mid-flight. -/
def addrW2 : String := "0x" ++ String.mk (List.replicate 40 'c')

lemma flights_all_eraseIdx (l : List Flight) (i : Nat)
    (h : l.all (fun f => !f.cancelled) = true) :
    (l.eraseIdx i).all (fun f => !f.cancelled) = true := by
  rw [List.all_eq_true] at h ⊢
  intro f hf
  exact h f ((List.eraseIdx_sublist l i).mem hf)

lemma refreshStep_no_cancel (s : RefreshState) (e : RefreshEvent)
    (h : s.flights.all (fun f => !f.cancelled) = true) :
    (refreshStep s e).flights.all (fun f => !f.cancelled) = true := by
  cases e with
  | editWallet t w => exact h
  | startRefresh =>
    simp only [refreshStep]
    split
    · exact h
    · split
      · exact h
      · split
        · exact h
        · simp [List.all_append, h]
  | resolveOk i raw =>
    simp only [refreshStep]
    split
    · exact h
    · split
      · exact flights_all_eraseIdx s.flights i h
      · exact flights_all_eraseIdx s.flights i h
  | resolveErr i =>
    simp only [refreshStep]
    split
    · exact h
    · split
      · exact flights_all_eraseIdx s.flights i h
      · exact flights_all_eraseIdx s.flights i h

set_option maxRecDepth 4000 in
/-- C2: the cancellation guard of `refresh` is dead code, so a stale
in-flight result IS written into the balance store.  First part: in
every execution of the model, every in-flight invocation's `cancelled`
flag stays `false` — the closure that would set it (TokenBalances.tsx
lines 234-236) is returned from the async function, whose promise the
`useEffect` discards, so no event can flip the flag.  Second part: in
the concrete execution where the wallet for the active token is edited
from one address to another while a refresh targeting the old wallet is
in flight, the stale resolved value is written into the balance store —
contradicting the claim that it must not appear there. -/
theorem c2_stale_refresh_result_written :
    (∀ (init : RefreshState) (events : List RefreshEvent),
        init.flights.all (fun f => !f.cancelled) = true →
        (refreshRun init events).flights.all (fun f => !f.cancelled) = true) ∧
    assocGet (refreshRun
        { tokens := [⟨addrT, 18⟩], walletByToken := [(addrT, addrW1)],
          activeAddr := some addrT, balances := [], flights := [] }
        [.startRefresh, .editWallet addrT addrW2, .resolveOk 0 5]).balances
      (lowerStr addrT) = some (some "0.000000000000000005") := by
  constructor
  · intro init events
    induction events generalizing init with
    | nil => exact fun h => h
    | cons e rest ih =>
      intro h
      exact ih (refreshStep init e) (refreshStep_no_cancel init e h)
  · decide

set_option maxRecDepth 4000 in
/-- C2 witness: the flag-stays-false part applied to the concrete
mid-flight-edit execution. -/
theorem c2_stale_refresh_result_written_witness :
    (refreshRun
        { tokens := [⟨addrT, 18⟩], walletByToken := [(addrT, addrW1)],
          activeAddr := some addrT, balances := [], flights := [] }
        [.startRefresh, .editWallet addrT addrW2]).flights.all
      (fun f => !f.cancelled) = true :=
  c2_stale_refresh_result_written.1
    { tokens := [⟨addrT, 18⟩], walletByToken := [(addrT, addrW1)],
      activeAddr := some addrT, balances := [], flights := [] }
    [.startRefresh, .editWallet addrT addrW2] (by decide)

/-! ## Claim C9: registry uniqueness -/

set_option maxRecDepth 4000 in
/-- C9 counterexample: with two registrations of the same address
overlapping in flight — both pass the duplicate pre-check before either
append runs — the registry ends with two entries whose lowercase
addresses are equal, so the claimed invariant fails for that reachable
state. -/
theorem c9_inflight_duplicate_counterexample :
    ¬ (((registryRun [.startAdd addrT, .startAdd addrT, .finishAdd 0,
          .finishAdd 0]).tokens.map lowerStr).Nodup) ∧
    (registryRun [.startAdd addrT, .startAdd addrT, .finishAdd 0,
        .finishAdd 0]).tokens = [addrT, addrT] := by
  constructor
  · decide
  · decide

lemma applyRegistryOp_nodup (tokens : List String) (op : RegistryOp)
    (h : (tokens.map lowerStr).Nodup) :
    ((applyRegistryOp tokens op).map lowerStr).Nodup := by
  cases op with
  | add a =>
    simp only [applyRegistryOp, addTokenAtomic]
    by_cases hva : isAddress a = false
    · rw [if_pos hva]
      exact h
    · rw [if_neg hva]
      by_cases hdup : tokens.any (fun t => lowerStr t == lowerStr a) = true
      · rw [if_pos hdup]
        exact h
      · rw [if_neg hdup]
        rw [List.map_append, List.map_singleton, List.nodup_append]
        refine ⟨h, List.nodup_singleton _, ?_⟩
        intro x hx hxa
        rcases List.mem_map.mp hx with ⟨t, ht, rfl⟩
        rcases List.mem_singleton.mp hxa with heq
        have : tokens.any (fun t => lowerStr t == lowerStr a) = true := by
          rw [List.any_eq_true]
          exact ⟨t, ht, by rw [heq]; exact beq_self_eq_true _⟩
        exact hdup this
  | remove a =>
    simp only [applyRegistryOp]
    have hsub : List.Sublist
        ((tokens.filter (fun t => !(lowerStr t == lowerStr a))).map lowerStr)
        (tokens.map lowerStr) := (List.filter_sublist tokens).map lowerStr
    exact List.Nodup.sublist hsub h

/-- C9 amended: for every sequence of completed, non-overlapping
`addToken` / `removeToken` operations (the duplicate pre-check and the
append of one registration are not separated by another registration of
the same address) the registry's entries have pairwise-distinct
lowercase addresses; with overlapping in-flight registrations of the
same address the invariant is violated (see the counterexample). -/
theorem c9_sequential_registry_unique :
    ∀ ops : List RegistryOp, ((ops.foldl applyRegistryOp []).map lowerStr).Nodup := by
  have key : ∀ (ops : List RegistryOp) (tokens : List String),
      (tokens.map lowerStr).Nodup → ((ops.foldl applyRegistryOp tokens).map lowerStr).Nodup := by
    intro ops
    induction ops with
    | nil => exact fun tokens h => h
    | cons op rest ih =>
      intro tokens h
      rw [List.foldl_cons]
      exact ih _ (applyRegistryOp_nodup tokens op h)
  exact fun ops => key ops [] (by simp)
